import Mathlib

/-!
Verification of the `MocaRedis` key-value facade
(src/moca_modules/moca_redis/MocaRedis.py).

The facade is embedded at two levels:

* a command-trace level: each method of `MocaRedis` is translated to the
  list of Redis commands it transmits to the driver, with keys namespaced
  and values encoded exactly as in the source;
* a store level: a small model of the external Redis server interprets
  those commands over a map from physical keys to stored bytes, and over
  a map from physical keys to lists for the list commands.

The value encoder `dumps` and decoder `loads` are external collaborators
(`moca_utils.moca_dumps` / `moca_utils.moca_loads`, pluggable per the
documentation), so they are abstract parameters here; `loads` takes an
optional byte string because the source applies it to driver replies that
may be the no-data sentinel `None`.
-/

namespace MocaRedis

/-- Connection parameters held by a `MocaRedis` instance, as set in
`MocaRedis.__init__`.  The SSL context is opaque, so it is modelled as an
abstract optional token. -/
structure Config where
  host : String
  port : Int
  db : Int
  password : String
  minsize : Int
  maxsize : Int
  ssl : Option Unit
deriving Repr, DecidableEq

/-- The `url` property of `MocaRedis`: the f-string
`redis://{":" if password != "" else ""}{password}@{host}:{port}/{db}`. -/
def url (c : Config) : String :=
  "redis://" ++ (if c.password ≠ "" then ":" else "") ++ c.password
    ++ "@" ++ c.host
    ++ ":" ++ toString c.port
    ++ "/" ++ toString c.db

/-- One argument of a Redis command as transmitted by the facade: a string
(keys, literal words), an encoded value (bytes produced by `dumps`), or an
integer (ttl, indices, counter amounts). -/
inductive Arg (B : Type) where
  | str : String → Arg B
  | bytes : B → Arg B
  | int : Int → Arg B
deriving Repr, DecidableEq

/-- A single Redis command: its name and its argument list, in
transmission order. -/
structure Command (B : Type) where
  name : String
  args : List (Arg B)
deriving Repr, DecidableEq

variable {B V : Type}

/-- Commands transmitted by `MocaRedis.set(key, value, expiration=-1)`:
`SET mr-key dumps(value)` when `expiration == -1`, else
`SETEX mr-key expiration dumps(value)`. -/
def set_commands (dumps : V → B) (key : String) (value : V) (expiration : Int) :
    List (Command B) :=
  if expiration = -1 then
    [⟨"SET", [.str ("mr-" ++ key), .bytes (dumps value)]⟩]
  else
    [⟨"SETEX", [.str ("mr-" ++ key), .int expiration, .bytes (dumps value)]⟩]

/-- The argument list built by the `expiration == -1` branch of
`MocaRedis.set_multi`: for each pair the namespaced key then the encoded
value, in input order. -/
def msetArgs (dumps : V → B) : List (String × V) → List (Arg B)
  | [] => []
  | (k, v) :: rest => .str ("mr-" ++ k) :: .bytes (dumps v) :: msetArgs dumps rest

/-- Commands transmitted by `MocaRedis.set_multi(data, expiration=-1)`:
one `MSET` over all pairs when `expiration == -1`, else one `SETEX` per
pair, sequentially in input order. -/
def set_multi_commands (dumps : V → B) (data : List (String × V)) (expiration : Int) :
    List (Command B) :=
  if expiration = -1 then
    [⟨"MSET", msetArgs dumps data⟩]
  else
    data.map (fun p => ⟨"SETEX", [.str ("mr-" ++ p.1), .int expiration, .bytes (dumps p.2)]⟩)

/-- Command transmitted by `MocaRedis.get`. -/
def get_commands (key : String) : List (Command B) :=
  [⟨"GET", [.str ("mr-" ++ key)]⟩]

/-- Command transmitted by `MocaRedis.get_multi`. -/
def get_multi_commands (keys : List String) : List (Command B) :=
  [⟨"MGET", keys.map (fun k => .str ("mr-" ++ k))⟩]

/-- Command transmitted by `MocaRedis.rpush`. -/
def rpush_commands (dumps : V → B) (key : String) (value : V) : List (Command B) :=
  [⟨"RPUSH", [.str ("mr-" ++ key), .bytes (dumps value)]⟩]

/-- Command transmitted by `MocaRedis.lpush`. -/
def lpush_commands (dumps : V → B) (key : String) (value : V) : List (Command B) :=
  [⟨"LPUSH", [.str ("mr-" ++ key), .bytes (dumps value)]⟩]

/-- Command transmitted by `MocaRedis.rpop`. -/
def rpop_commands (key : String) : List (Command B) :=
  [⟨"RPOP", [.str ("mr-" ++ key)]⟩]

/-- Command transmitted by `MocaRedis.lpop`. -/
def lpop_commands (key : String) : List (Command B) :=
  [⟨"LPOP", [.str ("mr-" ++ key)]⟩]

/-- Command transmitted by `MocaRedis.lrange`. -/
def lrange_commands (key : String) (start stop : Int) : List (Command B) :=
  [⟨"LRANGE", [.str ("mr-" ++ key), .int start, .int stop]⟩]

/-- Command transmitted by `MocaRedis.lindex`. -/
def lindex_commands (key : String) (index : Int) : List (Command B) :=
  [⟨"LINDEX", [.str ("mr-" ++ key), .int index]⟩]

/-- Command transmitted by `MocaRedis.llen`. -/
def llen_commands (key : String) : List (Command B) :=
  [⟨"LLEN", [.str ("mr-" ++ key)]⟩]

/-- Command transmitted by `MocaRedis.ltrim`. -/
def ltrim_commands (key : String) (start stop : Int) : List (Command B) :=
  [⟨"LTRIM", [.str ("mr-" ++ key), .int start, .int stop]⟩]

/-- Command transmitted by `MocaRedis.delete`. -/
def delete_commands (key : String) : List (Command B) :=
  [⟨"DEL", [.str ("mr-" ++ key)]⟩]

/-- Command transmitted by `MocaRedis.delete_multi`. -/
def delete_multi_commands (keys : List String) : List (Command B) :=
  [⟨"DEL", keys.map (fun k => .str ("mr-" ++ k))⟩]

/-- Command transmitted by `MocaRedis.increment`. -/
def increment_commands (key : String) : List (Command B) :=
  [⟨"INCR", [.str ("mr-" ++ key)]⟩]

/-- Command transmitted by `MocaRedis.increment_by`. -/
def increment_by_commands (key : String) (value : Int) : List (Command B) :=
  [⟨"INCRBY", [.str ("mr-" ++ key), .int value]⟩]

/-- Command transmitted by `MocaRedis.decrement`. -/
def decrement_commands (key : String) : List (Command B) :=
  [⟨"DECR", [.str ("mr-" ++ key)]⟩]

/-- Command transmitted by `MocaRedis.decrement_by`. -/
def decrement_by_commands (key : String) (value : Int) : List (Command B) :=
  [⟨"DECRBY", [.str ("mr-" ++ key), .int value]⟩]

/-- The string payload of an argument, if it is a string. -/
def Arg.asStr? : Arg B → Option String
  | .str s => some s
  | _ => none

/-- All string arguments transmitted by a list of commands, in
transmission order.  For every key-taking operation of the facade these
are exactly the keys put on the wire. -/
def stringArgs (cs : List (Command B)) : List String :=
  (cs.map (fun c => c.args.filterMap Arg.asStr?)).flatten

/-! ## Store-level model of the external Redis server

The server state for the string commands is a map from physical keys to
stored bytes.  `SET`, `SETEX` and `MSET` write; `GET` replies with the
stored bytes or the no-data sentinel (`none`, the driver's `None`). -/

/-- The string keyspace of the Redis server: physical key to stored
bytes, absent keys mapped to `none`. -/
def Store (B : Type) : Type := String → Option B

/-- Writing one physical key, as Redis `SET`/`SETEX` does. -/
def storeSet (s : Store B) (k : String) (b : B) : Store B :=
  fun k' => if k' = k then some b else s k'

/-- Redis `MSET` semantics over an argument list of alternating keys and
values, applied left to right. -/
def applyMset (s : Store B) : List (Arg B) → Store B
  | .str k :: .bytes b :: rest => applyMset (storeSet s k b) rest
  | _ => s

/-- Effect of one transmitted command on the string keyspace.  Commands
that do not write the string keyspace leave it unchanged. -/
def applyCmd (s : Store B) (c : Command B) : Store B :=
  match c.name, c.args with
  | "SET", [.str k, .bytes b] => storeSet s k b
  | "SETEX", [.str k, .int _, .bytes b] => storeSet s k b
  | "MSET", args => applyMset s args
  | _, _ => s

/-- Effect of a command sequence on the string keyspace. -/
def runCmds (s : Store B) (cs : List (Command B)) : Store B :=
  cs.foldl applyCmd s

/-- Store-level `MocaRedis.set`: the effect on the server of the commands
the method transmits. -/
def set (dumps : V → B) (s : Store B) (key : String) (value : V) (expiration : Int) :
    Store B :=
  runCmds s (set_commands dumps key value expiration)

/-- Store-level `MocaRedis.set_multi`. -/
def set_multi (dumps : V → B) (s : Store B) (data : List (String × V)) (expiration : Int) :
    Store B :=
  runCmds s (set_multi_commands dumps data expiration)

/-- The driver's reply to the `GET` transmitted by `MocaRedis.get`:
the stored bytes at the namespaced key, or the no-data sentinel. -/
def getReply (s : Store B) (key : String) : Option B :=
  s ("mr-" ++ key)

/-- `MocaRedis.get(key, default=None)`: `default` if the driver replied
with the sentinel, else the decoded bytes (`loads(data)`). -/
def get (loads : Option B → V) (s : Store B) (key : String) (default : V) : V :=
  match getReply s key with
  | none => default
  | some data => loads (some data)

/-! ## `get_multi` and the result dictionary

`MocaRedis.get_multi` walks the `MGET` reply list, writing
`result[keys[index]]` for each entry.  The Python `dict` is modelled as
an association list with insertion order and overwrite-in-place
semantics, which is exactly how `dict` assignment behaves. -/

/-- Python `dict` assignment `d[k] = v`: overwrite in place if the key is
present, else append the new entry. -/
def dictInsert (d : List (String × Option V)) (k : String) (v : Option V) :
    List (String × Option V) :=
  if ∃ p ∈ d, p.1 = k then
    d.map (fun p => if p.1 = k then (k, v) else p)
  else
    d ++ [(k, v)]

/-- The keys of a modelled dictionary, in insertion order. -/
def dictKeys (d : List (String × Option V)) : List String :=
  d.map Prod.fst

/-- The loop of `MocaRedis.get_multi`: iterate over the driver reply,
decoding each non-sentinel entry and writing it to the result dictionary
under `keys[index]`.  A reply longer than `keys` makes the source raise
`IndexError`, modelled as `none`. -/
def getMultiGo (loads : Option B → V) (keys : List String) :
    List (Option B) → Nat → List (String × Option V) → Option (List (String × Option V))
  | [], _, result => some result
  | data :: rest, index, result =>
    match keys[index]? with
    | none => none
    | some k =>
        getMultiGo loads keys rest (index + 1)
          (dictInsert result k (data.map (fun b => loads (some b))))

/-- `MocaRedis.get_multi(keys)` given the driver's `MGET` reply. -/
def get_multi (loads : Option B → V) (keys : List String) (data_list : List (Option B)) :
    Option (List (String × Option V)) :=
  getMultiGo loads keys data_list 0 []

/-! ## List commands

The server state for the list commands is a map from physical keys to
lists of stored bytes; `RPOP`/`LPOP` reply with the tail/head element or
the no-data sentinel when the list is empty. -/

/-- The list keyspace of the Redis server. -/
def ListStore (B : Type) : Type := String → List B

/-- The driver's reply to the `RPOP` transmitted by `MocaRedis.rpop`. -/
def rpopReply (ls : ListStore B) (key : String) : Option B :=
  (ls ("mr-" ++ key)).getLast?

/-- The driver's reply to the `LPOP` transmitted by `MocaRedis.lpop`. -/
def lpopReply (ls : ListStore B) (key : String) : Option B :=
  (ls ("mr-" ++ key)).head?

/-- `MocaRedis.rpop(key)`: `loads` applied to the raw driver reply,
sentinel included. -/
def rpop (loads : Option B → V) (ls : ListStore B) (key : String) : V :=
  loads (rpopReply ls key)

/-- `MocaRedis.lpop(key)`: `loads` applied to the raw driver reply,
sentinel included. -/
def lpop (loads : Option B → V) (ls : ListStore B) (key : String) : V :=
  loads (lpopReply ls key)

/-! ## Connection pool

`get_aio_pool` and `create_aio_pool` manage the shared `self._pool`
slot.  The external driver call `aioredis.create_pool` is modelled as
drawing a fresh pool identifier from a counter, so distinct calls build
distinct pools. -/

/-- The pool state of a `MocaRedis` instance: the shared `self._pool`
slot (`none` when unset) together with the next fresh pool identifier
the driver would hand out. -/
structure PoolState where
  slot : Option Nat
  counter : Nat
deriving Repr, DecidableEq

/-- `MocaRedis.get_aio_pool`: if the slot is empty, build a new pool,
store it and return it; else return the stored pool and leave the state
unchanged. -/
def get_aio_pool (s : PoolState) : Nat × PoolState :=
  match s.slot with
  | none => (s.counter, ⟨some s.counter, s.counter + 1⟩)
  | some p => (p, s)

/-- `MocaRedis.create_aio_pool`: always build a new pool; store it in the
slot only if the slot is empty; return the new pool in every case. -/
def create_aio_pool (s : PoolState) : Nat × PoolState :=
  match s.slot with
  | none => (s.counter, ⟨some s.counter, s.counter + 1⟩)
  | some p => (s.counter, ⟨some p, s.counter + 1⟩)

/-! ## Helper lemmas -/

/-- `msetArgs` lists, for each pair in input order, the namespaced key
followed by the encoded value. -/
theorem msetArgs_eq_flatten (dumps : V → B) (data : List (String × V)) :
    msetArgs dumps data
      = (data.map (fun p => [Arg.str ("mr-" ++ p.1), Arg.bytes (dumps p.2)])).flatten := by
  induction data with
  | nil => rfl
  | cons p rest ih => cases p with | mk k v => simp [msetArgs, ih]

theorem filterMap_asStr_msetArgs (dumps : V → B) (data : List (String × V)) :
    (msetArgs dumps data).filterMap Arg.asStr? = data.map (fun p => "mr-" ++ p.1) := by
  induction data with
  | nil => rfl
  | cons p rest ih => cases p with | mk k v => simp [msetArgs, Arg.asStr?, ih]

theorem filterMap_asStr_map_str (keys : List String) :
    List.filterMap (Arg.asStr? (B := B) ∘ fun k => Arg.str ("mr-" ++ k)) keys
      = keys.map (fun k => "mr-" ++ k) := by
  induction keys with
  | nil => rfl
  | cons k ks ih => simp [Arg.asStr?, ih]


theorem stringArgs_setex_map (dumps : V → B) (e : Int) (data : List (String × V)) :
    stringArgs (data.map (fun p =>
        Command.mk "SETEX" [.str ("mr-" ++ p.1), .int e, .bytes (dumps p.2)]))
      = data.map (fun p => "mr-" ++ p.1) := by
  induction data with
  | nil => rfl
  | cons p rest ih => cases p with | mk k v => simp_all [stringArgs, Arg.asStr?]

/-! ## Claims -/

/-- Claim C1: for every key and value, `set(k, v)` with no ttl followed by
`get(k)` returns `v`, provided the external decoder inverts the external
encoder on that value. -/
theorem set_get_roundtrip (dumps : V → B) (loads : Option B → V) (s : Store B)
    (key : String) (value default : V)
    (h : loads (some (dumps value)) = value) :
    get loads (set dumps s key value (-1)) key default = value := by
  simp [get, getReply, set, runCmds, set_commands, applyCmd, storeSet, h]

theorem set_get_roundtrip_witness :
    get (fun o => Option.getD o 0) (set (fun n : Nat => n) (fun _ => none) "k" 7 (-1)) "k" 0
      = 7 :=
  set_get_roundtrip (fun n : Nat => n) (fun o => Option.getD o 0) (fun _ => none) "k" 7 0 rfl

/-- Claim C3: `get(key, default)` returns `default` when the driver
replies with the no-data sentinel for the namespaced key, and the decoded
stored value otherwise. -/
theorem get_default_or_decoded (loads : Option B → V) (s : Store B)
    (key : String) (default : V) (b : B) :
    (s ("mr-" ++ key) = none → get loads s key default = default) ∧
    (s ("mr-" ++ key) = some b → get loads s key default = loads (some b)) := by
  constructor <;> intro h <;> simp [get, getReply, h]

theorem get_default_or_decoded_witness :
    ((fun k => if k = "mr-a" then some 5 else none) "mr-b" = (none : Option Nat) →
        get (fun o => Option.getD o 0) (fun k => if k = "mr-a" then some 5 else none) "b" 9 = 9) ∧
    ((fun k => if k = "mr-a" then some 5 else none) "mr-b" = some 5 →
        get (fun o => Option.getD o 0) (fun k => if k = "mr-a" then some 5 else none) "b" 9
          = (fun o : Option Nat => Option.getD o 0) (some 5)) := by
  exact get_default_or_decoded (fun o => Option.getD o 0)
    (fun k => if k = "mr-a" then some 5 else none) "b" 9 5

/-- Claim C4: with a ttl, `set` transmits a single `SETEX` carrying the
ttl, the namespaced key and the encoded value; without a ttl it transmits
a single plain `SET`. -/
theorem set_is_single_write (dumps : V → B) (key : String) (value : V) (e : Int) :
    set_commands dumps key value (-1)
      = [⟨"SET", [.str ("mr-" ++ key), .bytes (dumps value)]⟩] ∧
    (e ≠ -1 →
      set_commands dumps key value e
        = [⟨"SETEX", [.str ("mr-" ++ key), .int e, .bytes (dumps value)]⟩]) :=
  ⟨by simp [set_commands], fun h => by simp [set_commands, h]⟩

theorem set_is_single_write_witness :
    ((10 : Int) ≠ -1) ∧
    set_commands (fun n : Nat => n) "k" 3 10
      = [⟨"SETEX", [.str "mr-k", .int 10, .bytes 3]⟩] :=
  ⟨by decide, (set_is_single_write (fun n : Nat => n) "k" 3 10).2 (by decide)⟩

/-- Claim C5: without a ttl, `set_multi` transmits exactly one `MSET`
whose arguments are the namespaced keys and encoded values of all pairs
in input order; with a ttl it transmits one `SETEX` per pair,
sequentially in input order. -/
theorem set_multi_commands_shape (dumps : V → B) (data : List (String × V)) (e : Int) :
    set_multi_commands dumps data (-1) = [⟨"MSET", msetArgs dumps data⟩] ∧
    msetArgs dumps data
      = (data.map (fun p => [Arg.str ("mr-" ++ p.1), Arg.bytes (dumps p.2)])).flatten ∧
    (e ≠ -1 →
      set_multi_commands dumps data e
        = data.map (fun p =>
            ⟨"SETEX", [.str ("mr-" ++ p.1), .int e, .bytes (dumps p.2)]⟩)) :=
  ⟨by simp [set_multi_commands], msetArgs_eq_flatten dumps data,
    fun h => by simp [set_multi_commands, h]⟩

theorem set_multi_commands_shape_witness :
    ((7 : Int) ≠ -1) ∧
    set_multi_commands (fun n : Nat => n) [("a", 1), ("b", 2)] 7
      = [⟨"SETEX", [.str "mr-a", .int 7, .bytes 1]⟩,
         ⟨"SETEX", [.str "mr-b", .int 7, .bytes 2]⟩] :=
  ⟨by decide,
    ((set_multi_commands_shape (fun n : Nat => n) [("a", 1), ("b", 2)] 7).2.2 (by decide)).trans
      (by simp)⟩

/-- Claim C7: `get_aio_pool` creates a pool only when the shared slot is
empty and thereafter returns the stored pool with the state unchanged;
`create_aio_pool` always builds a fresh pool, stores it only into an
empty slot, and returns the fresh pool in every case; a non-empty slot is
never replaced by either operation. -/
theorem pool_management_spec (s : PoolState) (p : Nat) :
    (s.slot = none → get_aio_pool s = (s.counter, ⟨some s.counter, s.counter + 1⟩)) ∧
    (s.slot = some p → get_aio_pool s = (p, s)) ∧
    get_aio_pool (get_aio_pool s).2 = ((get_aio_pool s).1, (get_aio_pool s).2) ∧
    (s.slot = none → create_aio_pool s = (s.counter, ⟨some s.counter, s.counter + 1⟩)) ∧
    (s.slot = some p → create_aio_pool s = (s.counter, ⟨some p, s.counter + 1⟩)) := by
  rcases s with ⟨slot, counter⟩
  cases slot <;> simp_all [get_aio_pool, create_aio_pool]

theorem pool_management_spec_witness :
    (PoolState.mk (some 4) 9).slot = some 4 ∧
    get_aio_pool ⟨some 4, 9⟩ = (4, ⟨some 4, 9⟩) ∧
    create_aio_pool ⟨some 4, 9⟩ = (9, ⟨some 4, 10⟩) := by
  refine ⟨rfl, ?_, ?_⟩
  · exact (pool_management_spec ⟨some 4, 9⟩ 4).2.1 rfl
  · exact (pool_management_spec ⟨some 4, 9⟩ 4).2.2.2.2 rfl

/-- Claim C8 counterexample: with an empty password the constructed URL
keeps the `@` separator, so it is `redis://@host:port/db`, not the
`redis://host:port/db` the claim states. -/
theorem url_empty_password_counterexample :
    url ⟨"localhost", 6379, 0, "", 1, 10, none⟩ = "redis://@localhost:6379/0" ∧
    url ⟨"localhost", 6379, 0, "", 1, 10, none⟩ ≠ "redis://localhost:6379/0" := by
  constructor <;> decide

/-- Claim C8 as amended: with a non-empty password the URL is
`redis://:password@host:port/db`; with an empty password only the
`:password` segment is omitted and the `@` separator remains, yielding
`redis://@host:port/db`. -/
theorem url_shape (c : Config) :
    (c.password ≠ "" →
      url c = "redis://:" ++ c.password ++ "@" ++ c.host
        ++ ":" ++ toString c.port ++ "/" ++ toString c.db) ∧
    (c.password = "" →
      url c = "redis://@" ++ c.host ++ ":" ++ toString c.port ++ "/" ++ toString c.db) := by
  constructor <;> intro h
  · unfold url
    rw [if_pos h, show ("redis://" ++ ":" : String) = "redis://:" from rfl]
  · unfold url
    rw [if_neg (fun hne => hne h), h,
      show ((("redis://" ++ "") ++ "") ++ "@" : String) = "redis://@" from rfl]

theorem url_shape_witness :
    (("pw" : String) ≠ "") ∧
    url ⟨"h", 1, 2, "pw", 1, 10, none⟩ = "redis://:pw@h:1/2" := by
  refine ⟨by decide, ?_⟩
  have h := (url_shape ⟨"h", 1, 2, "pw", 1, 10, none⟩).1 (by decide)
  exact h.trans (by decide)

/-- Claim C9: when the list at the namespaced key is empty the driver
replies with the no-data sentinel, and `rpop`/`lpop` return the decoder
applied to that sentinel instead of raising. -/
theorem pop_empty_decodes_sentinel (loads : Option B → V) (ls : ListStore B)
    (key : String) (h : ls ("mr-" ++ key) = []) :
    rpop loads ls key = loads none ∧ lpop loads ls key = loads none := by
  simp [rpop, lpop, rpopReply, lpopReply, h]

theorem pop_empty_decodes_sentinel_witness :
    rpop (fun o : Option Nat => Option.getD o 0) (fun _ => []) "k" = 0 ∧
    lpop (fun o : Option Nat => Option.getD o 0) (fun _ => []) "k" = 0 :=
  pop_empty_decodes_sentinel (fun o : Option Nat => Option.getD o 0) (fun _ => []) "k" rfl

/-- Claim C10: expiration `-1` is the reserved no-ttl sentinel of `set`
and `set_multi`: passing `-1` issues the same non-expiring write as the
default, no transmitted `SETEX` ever carries ttl `-1`, and every other
expiration is passed through as the ttl of an expiring write. -/
theorem expiration_sentinel_spec (dumps : V → B) (key : String) (value : V)
    (data : List (String × V)) (e : Int) :
    set_commands dumps key value (-1)
      = [⟨"SET", [.str ("mr-" ++ key), .bytes (dumps value)]⟩] ∧
    set_multi_commands dumps data (-1) = [⟨"MSET", msetArgs dumps data⟩] ∧
    (e ≠ -1 →
      set_commands dumps key value e
        = [⟨"SETEX", [.str ("mr-" ++ key), .int e, .bytes (dumps value)]⟩]) ∧
    (e ≠ -1 →
      set_multi_commands dumps data e
        = data.map (fun p =>
            ⟨"SETEX", [.str ("mr-" ++ p.1), .int e, .bytes (dumps p.2)]⟩)) ∧
    (∀ c ∈ set_commands dumps key value e, c.name = "SETEX" → Arg.int (-1) ∉ c.args) ∧
    (∀ c ∈ set_multi_commands dumps data e, c.name = "SETEX" → Arg.int (-1) ∉ c.args) := by
  refine ⟨by simp [set_commands], by simp [set_multi_commands],
    fun h => by simp [set_commands, h], fun h => by simp [set_multi_commands, h], ?_, ?_⟩
  · intro c hc hname
    unfold set_commands at hc
    by_cases he : e = -1
    · rw [if_pos he] at hc
      simp at hc
      rw [hc] at hname
      simp at hname
    · rw [if_neg he] at hc
      simp at hc
      rw [hc]
      simp [Ne.symm he]
  · intro c hc hname
    unfold set_multi_commands at hc
    by_cases he : e = -1
    · rw [if_pos he] at hc
      simp at hc
      rw [hc] at hname
      simp at hname
    · rw [if_neg he] at hc
      simp at hc
      obtain ⟨p, w, hmem, hceq⟩ := hc
      rw [← hceq]
      simp [Ne.symm he]

theorem expiration_sentinel_spec_witness :
    ((0 : Int) ≠ -1) ∧
    set_commands (fun n : Nat => n) "k" 1 0 = [⟨"SETEX", [.str "mr-k", .int 0, .bytes 1]⟩] ∧
    set_multi_commands (fun n : Nat => n) [("a", 2)] 0
      = [⟨"SETEX", [.str "mr-a", .int 0, .bytes 2]⟩] := by
  refine ⟨by decide, ?_, ?_⟩
  · exact (expiration_sentinel_spec (fun n : Nat => n) "k" 1 [("a", 2)] 0).2.2.1 (by decide)
  · exact ((expiration_sentinel_spec (fun n : Nat => n) "k" 1 [("a", 2)] 0).2.2.2.1
      (by decide)).trans (by simp)

/-- Claim C2: every key-taking operation transmits exactly the string
`"mr-"` prepended to each of its logical keys, in input order, and no
operation transmits an unprefixed logical key: per operation, the string
arguments put on the wire are exactly the namespaced keys. -/
theorem all_ops_namespace_keys (dumps : V → B) (key : String) (value : V)
    (e : Int) (data : List (String × V)) (keys : List String)
    (start stop index amount : Int) :
    stringArgs (set_commands dumps key value e) = ["mr-" ++ key] ∧
    stringArgs (set_multi_commands dumps data e) = data.map (fun p => "mr-" ++ p.1) ∧
    stringArgs (get_commands (B := B) key) = ["mr-" ++ key] ∧
    stringArgs (get_multi_commands (B := B) keys) = keys.map (fun k => "mr-" ++ k) ∧
    stringArgs (rpush_commands dumps key value) = ["mr-" ++ key] ∧
    stringArgs (lpush_commands dumps key value) = ["mr-" ++ key] ∧
    stringArgs (rpop_commands (B := B) key) = ["mr-" ++ key] ∧
    stringArgs (lpop_commands (B := B) key) = ["mr-" ++ key] ∧
    stringArgs (lrange_commands (B := B) key start stop) = ["mr-" ++ key] ∧
    stringArgs (lindex_commands (B := B) key index) = ["mr-" ++ key] ∧
    stringArgs (llen_commands (B := B) key) = ["mr-" ++ key] ∧
    stringArgs (ltrim_commands (B := B) key start stop) = ["mr-" ++ key] ∧
    stringArgs (delete_commands (B := B) key) = ["mr-" ++ key] ∧
    stringArgs (delete_multi_commands (B := B) keys) = keys.map (fun k => "mr-" ++ k) ∧
    stringArgs (increment_commands (B := B) key) = ["mr-" ++ key] ∧
    stringArgs (increment_by_commands (B := B) key amount) = ["mr-" ++ key] ∧
    stringArgs (decrement_commands (B := B) key) = ["mr-" ++ key] ∧
    stringArgs (decrement_by_commands (B := B) key amount) = ["mr-" ++ key] := by
  refine ⟨?_, ?_, ?_, ?_, ?_, ?_, ?_, ?_, ?_, ?_, ?_, ?_, ?_, ?_, ?_, ?_, ?_, ?_⟩
  · unfold set_commands
    split <;> simp [stringArgs, Arg.asStr?]
  · unfold set_multi_commands
    split
    · simp [stringArgs, filterMap_asStr_msetArgs]
    · exact stringArgs_setex_map dumps e data
  · simp [get_commands, stringArgs, Arg.asStr?]
  · simp [get_multi_commands, stringArgs, filterMap_asStr_map_str]
  · simp [rpush_commands, stringArgs, Arg.asStr?]
  · simp [lpush_commands, stringArgs, Arg.asStr?]
  · simp [rpop_commands, stringArgs, Arg.asStr?]
  · simp [lpop_commands, stringArgs, Arg.asStr?]
  · simp [lrange_commands, stringArgs, Arg.asStr?]
  · simp [lindex_commands, stringArgs, Arg.asStr?]
  · simp [llen_commands, stringArgs, Arg.asStr?]
  · simp [ltrim_commands, stringArgs, Arg.asStr?]
  · simp [delete_commands, stringArgs, Arg.asStr?]
  · simp [delete_multi_commands, stringArgs, filterMap_asStr_map_str]
  · simp [increment_commands, stringArgs, Arg.asStr?]
  · simp [increment_by_commands, stringArgs, Arg.asStr?]
  · simp [decrement_commands, stringArgs, Arg.asStr?]
  · simp [decrement_by_commands, stringArgs, Arg.asStr?]

/-! ## Lemmas for `get_multi` -/

theorem fst_overwrite (d : List (String × Option V)) (k : String) (v : Option V) :
    dictKeys (d.map (fun p => if p.1 = k then (k, v) else p)) = dictKeys d := by
  induction d with
  | nil => rfl
  | cons p rest ih =>
      unfold dictKeys at ih ⊢
      by_cases h : p.1 = k <;> simp [h, ih]

theorem dictKeys_dictInsert (d : List (String × Option V)) (k : String) (v : Option V) :
    dictKeys (dictInsert d k v)
      = if ∃ p ∈ d, p.1 = k then dictKeys d else dictKeys d ++ [k] := by
  unfold dictInsert
  split
  · exact fst_overwrite d k v
  · simp [dictKeys]

theorem mem_dictKeys_dictInsert (d : List (String × Option V)) (k : String)
    (v : Option V) (k' : String) :
    k' ∈ dictKeys (dictInsert d k v) ↔ k' ∈ dictKeys d ∨ k' = k := by
  rw [dictKeys_dictInsert]
  split
  · rename_i h
    obtain ⟨p, hp, hpk⟩ := h
    constructor
    · exact Or.inl
    · rintro (h' | rfl)
      · exact h'
      · exact hpk ▸ List.mem_map_of_mem Prod.fst hp
  · simp

theorem nodup_dictKeys_dictInsert (d : List (String × Option V)) (k : String)
    (v : Option V) (h : (dictKeys d).Nodup) :
    (dictKeys (dictInsert d k v)).Nodup := by
  rw [dictKeys_dictInsert]
  split
  · exact h
  · rename_i hno
    have hk : k ∉ dictKeys d := by
      intro hkmem
      obtain ⟨p, hp, hpk⟩ := List.mem_map.1 hkmem
      exact hno ⟨p, hp, hpk⟩
    simp [List.nodup_append, h, hk]

theorem mem_dictInsert (d : List (String × Option V)) (k : String) (v : Option V)
    (p : String × Option V) (hp : p ∈ dictInsert d k v) :
    p ∈ d ∨ p = (k, v) := by
  unfold dictInsert at hp
  split at hp
  · obtain ⟨q, hq, hfq⟩ := List.mem_map.1 hp
    by_cases h : q.1 = k
    · right
      rw [← hfq, if_pos h]
    · left
      rw [← hfq, if_neg h]
      exact hq
  · rcases List.mem_append.1 hp with h | h
    · exact Or.inl h
    · simp at h
      exact Or.inr h

theorem drop_cons_getElem {α : Type} {l : List α} {n : Nat} {a : α} {t : List α}
    (h : l.drop n = a :: t) : l[n]? = some a ∧ l.drop (n + 1) = t := by
  induction n generalizing l with
  | zero =>
      simp only [List.drop_zero] at h
      subst h
      simp
  | succ n ih =>
      cases l with
      | nil => simp at h
      | cons x xs =>
          rw [List.drop_succ_cons] at h
          obtain ⟨h1, h2⟩ := ih h
          exact ⟨by simpa using h1, by simpa using h2⟩

theorem getMultiGo_spec (loads : Option B → V) (keys : List String)
    (g : String → Option B) :
    ∀ (suffix : List String) (index : Nat) (result : List (String × Option V)),
      keys.drop index = suffix →
      (∀ p ∈ result, p.2 = (g p.1).map (fun b => loads (some b))) →
      (dictKeys result).Nodup →
      ∃ r, getMultiGo loads keys (suffix.map g) index result = some r ∧
        (∀ p ∈ r, p.2 = (g p.1).map (fun b => loads (some b))) ∧
        (dictKeys r).Nodup ∧
        (∀ k, k ∈ dictKeys r ↔ k ∈ dictKeys result ∨ k ∈ suffix) := by
  intro suffix
  induction suffix with
  | nil =>
      intro index result hdrop hres hnd
      exact ⟨result, rfl, hres, hnd, by simp⟩
  | cons k0 rest ih =>
      intro index result hdrop hres hnd
      obtain ⟨hget, hdrop'⟩ := drop_cons_getElem hdrop
      have step : getMultiGo loads keys ((k0 :: rest).map g) index result
          = getMultiGo loads keys (rest.map g) (index + 1)
              (dictInsert result k0 ((g k0).map (fun b => loads (some b)))) := by
        simp [getMultiGo, hget]
      obtain ⟨r, hr, hrP, hrnd, hrmem⟩ :=
        ih (index + 1) (dictInsert result k0 ((g k0).map (fun b => loads (some b))))
          hdrop'
          (fun p hp => by
            rcases mem_dictInsert _ _ _ _ hp with h | h
            · exact hres p h
            · rw [h])
          (nodup_dictKeys_dictInsert _ _ _ hnd)
      refine ⟨r, step.trans hr, hrP, hrnd, fun k => ?_⟩
      rw [hrmem k, mem_dictKeys_dictInsert]
      simp only [List.mem_cons]
      tauto

/-- Claim C6: under the precondition that the driver's `MGET` reply has
one entry per requested key in request order, `get_multi` succeeds and
returns a dictionary whose keys are exactly the requested logical keys,
each exactly once, each mapped to the decoded stored value when present
and to the sentinel `none` when absent. -/
theorem get_multi_spec (loads : Option B → V) (s : Store B) (keys : List String)
    (data_list : List (Option B))
    (h : data_list = keys.map (fun k => s ("mr-" ++ k))) :
    ∃ r, get_multi loads keys data_list = some r ∧
      (∀ p ∈ r, p.2 = (s ("mr-" ++ p.1)).map (fun b => loads (some b))) ∧
      (dictKeys r).Nodup ∧
      (∀ k, k ∈ dictKeys r ↔ k ∈ keys) := by
  subst h
  obtain ⟨r, hr, hP, hnd, hmem⟩ :=
    getMultiGo_spec loads keys (fun k => s ("mr-" ++ k)) keys 0 []
      (by simp) (by simp) (by simp [dictKeys])
  exact ⟨r, hr, hP, hnd, fun k => by simpa [dictKeys] using hmem k⟩

theorem get_multi_spec_witness :
    [some 3, (none : Option Nat)]
        = (["a", "b"]).map
            (fun k => (fun k' => if k' = "mr-a" then some 3 else none) ("mr-" ++ k)) ∧
    ∃ r, get_multi (fun o : Option Nat => Option.getD o 0) ["a", "b"] [some 3, none]
          = some r ∧
      (∀ p ∈ r, p.2
          = ((fun k' => if k' = "mr-a" then some 3 else none) ("mr-" ++ p.1)).map
              (fun b => (fun o : Option Nat => Option.getD o 0) (some b))) ∧
      (dictKeys r).Nodup ∧
      (∀ k, k ∈ dictKeys r ↔ k ∈ ["a", "b"]) :=
  ⟨by decide,
    get_multi_spec (fun o : Option Nat => Option.getD o 0)
      (fun k' => if k' = "mr-a" then some 3 else none) ["a", "b"] [some 3, none] (by decide)⟩

end MocaRedis
